import Mathlib

/-!
Shallow embedding of the IoTFrostPRedict core: the LightGBM frost-predictor
feature pipeline and scoring adapter (src/inferencelgbm/frost-lgbm-wasm-server.js)
and the Sense-Think-Act decision/poll loop (src/sta/staserver.js).

Modelling conventions:
- JavaScript numbers are modelled as ℚ.  All numeric values occurring in the
  claims are finite; where the source can produce NaN or -Infinity (out-of-range
  tensor reads, an empty maximum), the embedding returns `none` instead, since
  those values have no ℚ counterpart.
- External impure functions are parameters: `Math.log` becomes a `log : ℚ → ℚ`
  parameter, `Date.parse` a `String → Option ℚ` parameter (`none` models NaN),
  `Date#getUTCHours` a `String → Option (Fin 24)` parameter (`none` models an
  invalid date, whose hour is NaN), `Date#toISOString` a `ℚ → String` parameter.
- JavaScript `sort` with a consistent comparator is required to be stable; it is
  modelled by a stable insertion sort, which is observationally identical.
- Fallible operations return `Option`/`Except` where the source would throw.
-/

/-- Stable insertion into a list: an existing element `b` with `le b a` stays in
front of the inserted `a`, so ties keep their original order. -/
def insertLe {α : Type} (le : α → α → Bool) (a : α) : List α → List α
  | [] => [a]
  | b :: bs => if le b a then b :: insertLe le a bs else a :: b :: bs

/-- Stable sort by repeated insertion, models `Array.prototype.sort` with a
consistent comparator (stability is required by the JS specification). -/
def sortLe {α : Type} (le : α → α → Bool) (l : List α) : List α :=
  l.foldl (fun acc x => insertLe le x acc) []

namespace Frost

/-- ASCII lowering of one character, models `String.prototype.toLowerCase` on
the ASCII identifiers used as tensor names. -/
def charLower (c : Char) : Char :=
  if 'A' ≤ c ∧ c ≤ 'Z' then Char.ofNat (c.toNat + 32) else c

/-- Tests whether a character list starts with the four characters `prob`. -/
def probAtHead : List Char → Bool
  | 'p' :: 'r' :: 'o' :: 'b' :: _ => true
  | _ => false

/-- Tests whether `prob` occurs at any position of a character list. -/
def containsProbChars : List Char → Bool
  | [] => false
  | c :: cs => probAtHead (c :: cs) || containsProbChars cs

/-- Models the regular-expression test `/prob/i.test(n)` at line 169 of
frost-lgbm-wasm-server.js: case-insensitive substring search for `prob`. -/
def probMatch (s : String) : Bool := containsProbChars (s.data.map charLower)

/-- An onnxruntime output tensor: shape metadata plus flat row-major data. -/
structure OrtTensor where
  dims : List Nat
  data : List ℚ
deriving DecidableEq

/-- Property lookup `runOutput[n]` on the run-output object, modelled as an
association list from output names to tensors. -/
def lookupT (ro : List (String × OrtTensor)) (n : String) : Option OrtTensor :=
  (ro.find? (fun p => p.1 == n)).map (fun p => p.2)

/-- JavaScript `a || b` on string-valued options: the empty string is falsy. -/
def jsOrName (a : Option String) (b : Option String) : Option String :=
  match a with
  | some s => if s = "" then b else some s
  | none => b

/-- Predicate of the second `find` in `extractProbs` (lines 170-173): the named
output exists and its `dims` has length 2. -/
def is2dOutput (ro : List (String × OrtTensor)) (n : String) : Bool :=
  match lookupT ro n with
  | some t => t.dims.length == 2
  | none => false

/-- Output-name selection of `extractProbs` (lines 167-174): a name containing
`prob` case-insensitively, else a name of a 2-dimensional output, else the
first declared name, chained with JavaScript `||` (empty string is falsy). -/
def chooseName (names : List String) (ro : List (String × OrtTensor)) : Option String :=
  jsOrName (names.find? probMatch)
    (jsOrName (names.find? (is2dOutput ro)) names.head?)

/-- Collects the results of an option-valued function over a list, failing as a
whole when any single application fails. -/
def mapOpt {α : Type} (f : α → Option ℚ) : List α → Option (List ℚ)
  | [] => some []
  | a :: as =>
    match f a, mapOpt f as with
    | some b, some bs => some (b :: bs)
    | _, _ => none

/-- Shape dispatch of `extractProbs` (lines 177-202) on the chosen tensor.
JavaScript reads past the end of `data` yield NaN (and an empty `Math.max` fold
yields -Infinity); neither exists in ℚ, so those reads are modelled as `none`. -/
def extractFromTensor (t : OrtTensor) : Option (List ℚ) :=
  if t.dims.length = 2 then
    let N := t.dims.getD 0 0
    let C := t.dims.getD 1 0
    if C = 2 then
      mapOpt (fun i => t.data.get? (i * 2 + 1)) (List.range N)
    else if C = 1 then
      some (t.data.take N)
    else
      mapOpt (fun i =>
        (mapOpt (fun j => t.data.get? (i * C + j)) (List.range C)).bind List.max?)
        (List.range N)
  else if t.dims.length = 1 then
    let N := if t.dims.getD 0 0 = 0 then t.data.length else t.dims.getD 0 0
    some (t.data.take N)
  else
    some t.data

/-- Row `i` of a flat row-major `[N, C]` tensor, read with out-of-range entries
defaulted to 0 (the theorems only use it under an exact-length hypothesis). -/
def rowSlice (data : List ℚ) (C i : Nat) : List ℚ :=
  (List.range C).map (fun j => data.getD (i * C + j) 0)

/-- Scoring-adapter extraction `extractProbs` (lines 166-203): select an output
tensor by name, falling back to the first declared output if the chosen name
resolves to nothing, then dispatch on its shape. -/
def extractProbs (names : List String) (ro : List (String × OrtTensor)) : Option (List ℚ) :=
  match chooseName names ro with
  | none => none
  | some probName =>
    match (lookupT ro probName).or (names.head?.bind (lookupT ro)) with
    | none => none
    | some t => extractFromTensor t

/-- Configured standard-scaler statistics loaded from scaler_light.json. -/
structure Scaler where
  mean : List ℚ
  scale : List ℚ

/-- Scaler application `applyScaler` (lines 205-210): pass through when no
scaler is configured or when either statistics array mismatches the vector
length, else scale elementwise with a zero divisor replaced by 1. -/
def applyScaler (sc : Option Scaler) (vec : List ℚ) : List ℚ :=
  match sc with
  | none => vec
  | some s =>
    if s.mean.length ≠ vec.length ∨ s.scale.length ≠ vec.length then vec
    else vec.mapIdx (fun i v =>
      (v - s.mean.getD i 0) / (if s.scale.getD i 0 = 0 then 1 else s.scale.getD i 0))

/-- Magnus-form dew point `dewpointC` (lines 103-108), with `Math.log` as the
parameter `log` and the relative humidity floored at 1e-6 before the logarithm. -/
def dewpointC (log : ℚ → ℚ) (tC rhPct : Option ℚ) : Option ℚ :=
  match tC, rhPct with
  | some t, some rh =>
    let gamma := (17.62 * t) / (243.12 + t) + log (max 1e-6 (rh / 100))
    some ((243.12 * gamma) / (17.62 - gamma))
  | _, _ => none

/-- Four-bucket hour encoding `hourBin4` (lines 110-115).  `utcHour` models
`new Date(s).getUTCHours()`: `none` is an invalid date, whose NaN hour makes
every strict-equality comparison false, so all four entries become 0. -/
def hourBin4 (utcHour : String → Option (Fin 24)) (dateIso : String) : List ℚ :=
  match utcHour dateIso with
  | some h => [0, 1, 2, 3].map (fun i => if i = h.val / 6 then (1 : ℚ) else 0)
  | none => [0, 1, 2, 3].map (fun _ => (0 : ℚ))

/-- One normalized sample of a per-sensor window: epoch-millisecond time, the
original ISO string, and optional temperature and humidity readings. -/
structure Row where
  t : ℚ
  iso : String
  tC : Option ℚ
  hPct : Option ℚ
deriving DecidableEq

/-- Window suffix `sliceHours` (lines 240-246): backward scan from the end
collecting samples with `t` at least `last.t - h` hours; empty input gives []. -/
def sliceHours (rows : List Row) (h : ℚ) : List Row :=
  match rows.getLast? with
  | none => []
  | some last =>
    (rows.reverse.takeWhile (fun r => decide (last.t - h * 3600 * 1000 ≤ r.t))).reverse

/-- Window statistics `stats` (lines 247-259): mean, min and max over the
present values, all `none` when no value is present. -/
def statsOf (vs : List (Option ℚ)) : Option ℚ × Option ℚ × Option ℚ :=
  match vs.filterMap id with
  | [] => (none, none, none)
  | x :: xs =>
    (some ((x :: xs).sum / ((xs.length : ℚ) + 1)), some (xs.foldl min x), some (xs.foldl max x))

/-- Lag lookup `lag` (lines 260-270): the most recent sample at least `hours`
hours before the anchor, scanning backward; its reading, or `none`. -/
def lag (rows : List Row) (hours : ℚ) (f : Row → Option ℚ) : Option ℚ :=
  match rows.getLast? with
  | none => none
  | some last =>
    match rows.reverse.find? (fun r => decide (r.t ≤ last.t - hours * 3600 * 1000)) with
    | none => none
    | some r => f r

/-- Current temperature `last?.tC ?? null` (line 235). -/
def lastTemp (rows : List Row) : Option ℚ := rows.getLast?.bind (fun r => r.tC)

/-- Current humidity `last?.hPct ?? null` (line 236). -/
def lastHum (rows : List Row) : Option ℚ := rows.getLast?.bind (fun r => r.hPct)

/-- Current dew point `dpNow` (line 237). -/
def dpNowOf (log : ℚ → ℚ) (rows : List Row) : Option ℚ :=
  match lastTemp rows, lastHum rows with
  | some t, some h => dewpointC log (some t) (some h)
  | _, _ => none

/-- Temperature minus dew point `tdSpread` (line 238). -/
def tdSpreadOf (log : ℚ → ℚ) (rows : List Row) : Option ℚ :=
  match lastTemp rows, dpNowOf log rows with
  | some t, some d => some (t - d)
  | _, _ => none

/-- The computed-feature map `feats` (lines 292-311) as a lookup function from
feature name to its value; a name outside the map yields `none` (undefined). -/
def featsOf (log : ℚ → ℚ) (utcHour : String → Option (Fin 24))
    (rows : List Row) (refIso : String) (name : String) : Option ℚ :=
  let t3 := statsOf ((sliceHours rows 3).map (fun r => r.tC))
  let h3 := statsOf ((sliceHours rows 3).map (fun r => r.hPct))
  let t6 := statsOf ((sliceHours rows 6).map (fun r => r.tC))
  let h6 := statsOf ((sliceHours rows 6).map (fun r => r.hPct))
  let t12 := statsOf ((sliceHours rows 12).map (fun r => r.tC))
  let h12 := statsOf ((sliceHours rows 12).map (fun r => r.hPct))
  let hrBins := hourBin4 utcHour refIso
  if name = "temperature" then lastTemp rows
  else if name = "humidity" then lastHum rows
  else if name = "dewpoint" then dpNowOf log rows
  else if name = "td_spread" then tdSpreadOf log rows
  else if name = "temp_mean_3h" then t3.1
  else if name = "temp_min_3h" then t3.2.1
  else if name = "temp_max_3h" then t3.2.2
  else if name = "hum_mean_3h" then h3.1
  else if name = "hum_min_3h" then h3.2.1
  else if name = "hum_max_3h" then h3.2.2
  else if name = "temp_mean_6h" then t6.1
  else if name = "temp_min_6h" then t6.2.1
  else if name = "temp_max_6h" then t6.2.2
  else if name = "hum_mean_6h" then h6.1
  else if name = "hum_min_6h" then h6.2.1
  else if name = "hum_max_6h" then h6.2.2
  else if name = "temp_mean_12h" then t12.1
  else if name = "temp_min_12h" then t12.2.1
  else if name = "temp_max_12h" then t12.2.2
  else if name = "hum_mean_12h" then h12.1
  else if name = "hum_min_12h" then h12.2.1
  else if name = "hum_max_12h" then h12.2.2
  else if name = "temp_lag_1h" then lag rows 1 (fun r => r.tC)
  else if name = "temp_lag_3h" then lag rows 3 (fun r => r.tC)
  else if name = "temp_lag_6h" then lag rows 6 (fun r => r.tC)
  else if name = "hum_lag_1h" then lag rows 1 (fun r => r.hPct)
  else if name = "hum_lag_3h" then lag rows 3 (fun r => r.hPct)
  else if name = "hum_lag_6h" then lag rows 6 (fun r => r.hPct)
  else if name = "hr_bin_0" then some (hrBins.getD 0 0)
  else if name = "hr_bin_1" then some (hrBins.getD 1 0)
  else if name = "hr_bin_2" then some (hrBins.getD 2 0)
  else if name = "hr_bin_3" then some (hrBins.getD 3 0)
  else none

/-- Raw vector assembly (lines 313-317): look up every configured feature name;
`Number(null)` is 0 and `Number(undefined)` is NaN, and the non-finite guard
imputes 0 in both cases, so an absent value contributes 0. -/
def rawFeatureVec (log : ℚ → ℚ) (utcHour : String → Option (Fin 24))
    (names : List String) (rows : List Row) (refIso : String) : List ℚ :=
  names.map (fun nm => (featsOf log utcHour rows refIso nm).getD 0)

/-- Length repair (lines 320-324): pad with zeros or truncate to exactly 36,
returning also whether the repair warning was logged. -/
def padTruncate36 (v : List ℚ) : List ℚ × Bool :=
  if v.length = 36 then (v, false)
  else if v.length < 36 then (v ++ List.replicate (36 - v.length) 0, true)
  else (v.take 36, true)

/-- Feature-vector assembly `buildFeatureVectorFromWindow` (lines 231-326)
together with the repair-warning flag. -/
def buildFeatureVectorW (log : ℚ → ℚ) (utcHour : String → Option (Fin 24))
    (sc : Option Scaler) (names : List String) (rows : List Row) (refIso : String) :
    List ℚ × Bool :=
  padTruncate36 (applyScaler sc (rawFeatureVec log utcHour names rows refIso))

/-- Feature-vector assembly `buildFeatureVectorFromWindow` (lines 231-326). -/
def buildFeatureVectorFromWindow (log : ℚ → ℚ) (utcHour : String → Option (Fin 24))
    (sc : Option Scaler) (names : List String) (rows : List Row) (refIso : String) : List ℚ :=
  (buildFeatureVectorW log utcHour sc names rows refIso).1

/-- A raw sensor document as seen through the Schema Normalizer accessors
`pickTime`, `pickSensor` and `extractTempHum` (lines 129-154): resolved time
(`none` models a falsy result), resolved sensor id (never falsy, the chain ends
in a default), and coerced temperature and humidity. -/
structure RawDoc where
  timeIso : Option String
  sensor : String
  tC : Option ℚ
  hPct : Option ℚ

/-- JavaScript `Map.prototype.set` semantics on an insertion-ordered map of
row lists: appending to the list at an existing key keeps the key position. -/
def pushAt (m : List (String × List Row)) (k : String) (r : Row) : List (String × List Row) :=
  if m.any (fun p => p.1 == k) then
    m.map (fun p => if p.1 == k then (p.1, p.2 ++ [r]) else p)
  else m ++ [(k, [r])]

/-- Grouping pass of `buildBatches` (lines 330-340): drop a document whose
resolved time is falsy, whose readings are both null, or whose time fails to
parse; otherwise append its sample to its sensor's list.  `dparse` models
`new Date(s).getTime()` with `none` for NaN. -/
def groupBySensor (dparse : String → Option ℚ) (docs : List RawDoc) :
    List (String × List Row) :=
  docs.foldl (fun m doc =>
    match doc.timeIso with
    | none => m
    | some tIso =>
      if doc.tC = none ∧ doc.hPct = none then m
      else
        match dparse tIso with
        | none => m
        | some ms => pushAt m doc.sensor ⟨ms, tIso, doc.tC, doc.hPct⟩) []

/-- Per-sensor ascending sort by time (line 341), a stable sort under the
comparator `(a, b) => a.t - b.t`. -/
def sortRows (l : List Row) : List Row :=
  sortLe (fun a b => decide (a.t ≤ b.t)) l

/-- The grouped and per-sensor time-sorted series (lines 330-341). -/
def sortedGroups (dparse : String → Option ℚ) (docs : List RawDoc) :
    List (String × List Row) :=
  (groupBySensor dparse docs).map (fun p => (p.1, sortRows p.2))

/-- Static configuration of the frost predictor that the claims vary over. -/
structure FrostCfg where
  log : ℚ → ℚ
  utcHour : String → Option (Fin 24)
  scaler : Option Scaler
  featureNames : List String
  forwardWindowH : ℚ

/-- Request mode of one batch build: nowcast or forecast with a horizon. -/
structure BatchMode where
  asForward : Bool
  horizonH : ℚ

/-- One iteration of the per-sensor loop of `buildBatches` (lines 346-366):
append one vector and one metadata record for a sensor with at least one
sample, either in nowcast mode (anchor time) or forecast mode (restricted
window, future reference time).  `isoOf` models `new Date(ms).toISOString()`. -/
def bvmStep (cfg : FrostCfg) (isoOf : ℚ → String) (mode : BatchMode)
    (acc : List (List ℚ) × List (String × String)) (g : String × List Row) :
    List (List ℚ) × List (String × String) :=
  match g.2.getLast? with
  | none => acc
  | some lastR =>
    if mode.asForward = false then
      (acc.1 ++ [buildFeatureVectorFromWindow cfg.log cfg.utcHour cfg.scaler
                   cfg.featureNames g.2 lastR.iso],
       acc.2 ++ [(g.1, lastR.iso)])
    else
      let cutoff := lastR.t - cfg.forwardWindowH * 3600 * 1000
      let w := g.2.filter (fun r => decide (cutoff ≤ r.t))
      let fwdIso := isoOf (lastR.t + mode.horizonH * 3600 * 1000)
      let src := if w.isEmpty then g.2 else w
      (acc.1 ++ [buildFeatureVectorFromWindow cfg.log cfg.utcHour cfg.scaler
                   cfg.featureNames src fwdIso],
       acc.2 ++ [(g.1, fwdIso)])

/-- Per-sensor loop of `buildBatches` (lines 343-366): one vector and one
metadata record per sensor with at least one sample, in map insertion order. -/
def buildVecsMetas (cfg : FrostCfg) (isoOf : ℚ → String) (mode : BatchMode)
    (groups : List (String × List Row)) : List (List ℚ) × List (String × String) :=
  groups.foldl (bvmStep cfg isoOf mode) ([], [])

/-- A built batch: tensor shape, flat row-major tensor data, and the parallel
per-row metadata (sensor id, target time). -/
structure Batch where
  dims : List Nat
  data : List ℚ
  metas : List (String × String)
deriving DecidableEq

/-- Batch builder `buildBatches` (lines 329-373): group, sort, build one vector
per sensor, and pack a `[rowCount, 36]` tensor; with no vectors the tensor has
shape `[0, 36]` and empty data. -/
def buildBatches (cfg : FrostCfg) (dparse : String → Option ℚ) (isoOf : ℚ → String)
    (mode : BatchMode) (docs : List RawDoc) : Batch :=
  let vm := buildVecsMetas cfg isoOf mode (sortedGroups dparse docs)
  if vm.1.isEmpty then ⟨[0, 36], [], vm.2⟩
  else ⟨[vm.1.length, 36], vm.1.flatten, vm.2⟩

/-- Response of the `/predict` route, keeping the fields the claims mention. -/
structure PredictOut where
  status : Nat
  forward : Bool
  horizonHours : ℚ
  count : Nat
  points : List (String × String × Option ℚ)
  errorMsg : Option String
deriving DecidableEq

/-- The `/predict` handler (lines 393-433) after the time series has been
fetched: an empty batch short-circuits to a 200 response with `count` 0 and no
points; otherwise the opaque scorer `run` is invoked and probabilities are
extracted, an extraction failure (a thrown lookup in the source) becoming the
route's catch-all 500. -/
def predictResponse (cfg : FrostCfg) (dparse : String → Option ℚ) (isoOf : ℚ → String)
    (outNames : List String) (run : Batch → List (String × OrtTensor))
    (mode : BatchMode) (docs : List RawDoc) : PredictOut :=
  let b := buildBatches cfg dparse isoOf mode docs
  if b.dims.getD 0 0 = 0 then
    ⟨200, mode.asForward, mode.horizonH, 0, [], none⟩
  else
    match extractProbs outNames (run b) with
    | none => ⟨500, mode.asForward, mode.horizonH, 0, [], some "Server error"⟩
    | some probs =>
      let points := b.metas.enum.map (fun p => (p.2.1, p.2.2, probs.get? p.1))
      ⟨200, mode.asForward, mode.horizonH, points.length, points, none⟩

end Frost

namespace Sta

/-- The three decision outcomes of staserver.js (lines 107-117); the source
spells them 'UNKNOWN', 'TAKE ACTION' and 'NO ACTION'. -/
inductive Decision where
  | UNKNOWN
  | TAKE_ACTION
  | NO_ACTION
deriving DecidableEq

/-- One scored point of the predictor response, with optional fields as they
arrive from JSON. -/
structure PredPoint where
  sensorName : Option String
  time : Option String
  score : Option ℚ
deriving DecidableEq

/-- The parsed predictor response body: `Array.isArray(json.points)` failures
are absorbed into an empty `points` list by the caller. -/
structure PredJson where
  forward : Bool
  horizonHours : ℚ
  points : List PredPoint
deriving DecidableEq

/-- One decision row of the published snapshot (lines 119-125).  The
human-readable `reason` string is presentation-only formatting of the same
threshold comparison and is not modelled. -/
structure StaItem where
  sensorName : String
  time : String
  score : Option ℚ
  decision : Decision
deriving DecidableEq

/-- JavaScript `v || d` for string-valued fields: null, undefined and the
empty string fall through to the default. -/
def jsStrOr (v : Option String) (d : String) : String :=
  match v with
  | some s => if s = "" then d else s
  | none => d

/-- Threshold decision of the poll loop (lines 104-117): `frost` is
`score != null && score >= threshold`; a null score is UNKNOWN, frost is
TAKE ACTION, and anything else is NO ACTION. -/
def decisionOf (threshold : ℚ) (score : Option ℚ) : Decision :=
  let frost := match score with
    | some s => decide (threshold ≤ s)
    | none => false
  match score with
  | none => .UNKNOWN
  | some _ => if frost then .TAKE_ACTION else .NO_ACTION

/-- Normalization of one scored point into a decision row (lines 103-126). -/
def mkItem (threshold : ℚ) (p : PredPoint) : StaItem :=
  { sensorName := jsStrOr p.sensorName "unknown"
    time := jsStrOr p.time ""
    score := p.score
    decision := decisionOf threshold p.score }

/-- Millisecond time of an incoming item (line 132): an empty `time` is falsy
and short-circuits to the number 0; otherwise `Date.parse`, whose NaN is
modelled as `none`. -/
def tmsOfNew (dparse : String → Option ℚ) (it : StaItem) : Option ℚ :=
  if it.time = "" then some 0 else dparse it.time

/-- Millisecond time of the currently retained item (line 133): the source
evaluates `Date.parse(prev.time || 0)`, so an empty `time` is first replaced by
the number 0, which `Date.parse` coerces to the string "0". -/
def tmsOfPrev (dparse : String → Option ℚ) (p : StaItem) : Option ℚ :=
  dparse (if p.time = "" then "0" else p.time)

/-- JavaScript `>` on possibly-NaN numbers: any comparison with NaN is false. -/
def jsGt : Option ℚ → Option ℚ → Bool
  | some a, some b => decide (b < a)
  | _, _ => false

/-- One step of the keep-latest-by-sensor loop (lines 129-134) on the
insertion-ordered map, modelled as an association list with JavaScript `Map`
update semantics (an overwritten key keeps its position). -/
def dedupStep (dparse : String → Option ℚ) (m : List (String × StaItem)) (it : StaItem) :
    List (String × StaItem) :=
  match m.find? (fun p => p.1 == it.sensorName) with
  | none => m ++ [(it.sensorName, it)]
  | some pr =>
    if jsGt (tmsOfNew dparse it) (tmsOfPrev dparse pr.2) then
      m.map (fun p => if p.1 == it.sensorName then (p.1, it) else p)
    else m

/-- The keep-latest-by-sensor loop (lines 129-134). -/
def dedupFold (dparse : String → Option ℚ) (items : List StaItem) :
    List (String × StaItem) :=
  items.foldl (dedupStep dparse) []

/-- Deduplication and sorting of the published items (lines 129-139): keep one
item per sensor, then sort by sensor name.  `le` models the boolean outcome of
the `localeCompare` comparator. -/
def dedupSort (dparse : String → Option ℚ) (le : String → String → Bool)
    (items : List StaItem) : List StaItem :=
  sortLe (fun a b => le a.sensorName b.sensorName) ((dedupFold dparse items).map (fun p => p.2))

/-- The mutated part of the shared STATE snapshot (lines 60-66). -/
structure StaState where
  lastRunAt : Option String
  items : List StaItem
  error : Option String
deriving DecidableEq

/-- One poll cycle `pollPredictor` (lines 69-142) after its fetch has resolved:
a failure publishes an empty item list with the failure message, dropping the
previous snapshot's items; a success maps the points to decisions,
deduplicates, sorts and publishes with no error.  The function is total: no
exception escapes. -/
def pollStep (threshold : ℚ) (dparse : String → Option ℚ) (le : String → String → Bool)
    (now : String) (fetched : Except String PredJson) (prev : StaState) : StaState :=
  match fetched with
  | .error msg => { lastRunAt := some now, items := [], error := some msg }
  | .ok json =>
    { lastRunAt := some now
      items := dedupSort dparse le (json.points.map (mkItem threshold))
      error := none }

/-- Outcome of the `fetch` call in `pollPredictor`: a network rejection or an
HTTP response with its ok flag, status and body text. -/
inductive FetchOutcome where
  | netErr (msg : String)
  | response (ok : Bool) (status : Nat) (text : String)

/-- The try-block of `pollPredictor` (lines 88-92): a network rejection or a
non-ok status or a JSON parse failure yields the error message the catch-block
stores; `parse` models `JSON.parse` returning the thrown message on failure. -/
def fetchToJson (parse : String → Except String PredJson) : FetchOutcome → Except String PredJson
  | .netErr m => .error m
  | .response ok status text =>
    if ok = false then .error ("Predictor " ++ toString status ++ ": " ++ text)
    else parse text

/-- Retention rule of the amended deduplication claim, folded over one sensor's
items in arrival order: the incoming item replaces the retained one exactly
when the source's strict numeric comparison succeeds (both sides must parse;
comparisons against NaN are false). -/
def retainStep (dparse : String → Option ℚ) (acc : Option StaItem) (it : StaItem) :
    Option StaItem :=
  match acc with
  | none => some it
  | some prev => if jsGt (tmsOfNew dparse it) (tmsOfPrev dparse prev) then some it else some prev

/-- Modelled from the spec: the epoch-0 adjusted time the deduplication claim
prescribes, an unparsable time being treated as epoch 0. -/
def specAdjTime (dparse : String → Option ℚ) (it : StaItem) : ℚ :=
  (dparse it.time).getD 0

/-- Concrete `Date.parse` table for the deduplication counterexample, agreeing
with the V8 behaviour on these strings: a valid ISO instant parses to its epoch
milliseconds and the string `garbage` parses to NaN (`none`). -/
def dparseFix : String → Option ℚ := fun s =>
  if s = "2020-01-01T00:00:00.000Z" then some 1577836800000
  else if s = "0" then some 946684800000
  else none

end Sta

/-! Helper lemmas shared by the claim theorems. -/

theorem mapOpt_eq_some_map {α : Type} (l : List α) (f : α → Option ℚ) (g : α → ℚ)
    (h : ∀ i ∈ l, f i = some (g i)) : Frost.mapOpt f l = some (l.map g) := by
  induction l with
  | nil => rfl
  | cons a as ih =>
    have ha := h a (List.mem_cons_self a as)
    have has := ih (fun i hi => h i (List.mem_cons_of_mem a hi))
    simp [Frost.mapOpt, ha, has]

theorem insertLe_perm {α : Type} (le : α → α → Bool) (a : α) (l : List α) :
    (insertLe le a l).Perm (a :: l) := by
  induction l with
  | nil => simp [insertLe]
  | cons b bs ih =>
    by_cases hb : le b a = true
    · simpa [insertLe, hb] using ((ih.cons b).trans (List.Perm.swap a b bs))
    · simp [insertLe, hb]

theorem sortLe_perm {α : Type} (le : α → α → Bool) (l : List α) :
    (sortLe le l).Perm l := by
  suffices h : ∀ (l : List α) (acc : List α),
      (l.foldl (fun acc x => insertLe le x acc) acc).Perm (acc ++ l) by
    simpa using h l []
  intro l
  induction l with
  | nil => intro acc; simp
  | cons x xs ih =>
    intro acc
    have h1 := ih (insertLe le x acc)
    have h2 : (insertLe le x acc ++ xs).Perm (acc ++ x :: xs) :=
      ((insertLe_perm le x acc).append_right xs).trans List.perm_middle.symm
    simpa [List.foldl_cons] using h1.trans h2

theorem mem_insertLe {α : Type} (le : α → α → Bool) (a x : α) (l : List α) :
    x ∈ insertLe le a l ↔ x = a ∨ x ∈ l := by
  have := (insertLe_perm le a l).mem_iff (a := x)
  simpa using this

theorem mem_sortLe {α : Type} (le : α → α → Bool) (x : α) (l : List α) :
    x ∈ sortLe le l ↔ x ∈ l :=
  (sortLe_perm le l).mem_iff

theorem insertLe_pairwise {α : Type} (le : α → α → Bool)
    (htot : ∀ a b, le a b = true ∨ le b a = true)
    (htrans : ∀ a b c, le a b = true → le b c = true → le a c = true)
    (a : α) (l : List α) (hl : l.Pairwise (fun x y => le x y = true)) :
    (insertLe le a l).Pairwise (fun x y => le x y = true) := by
  induction l with
  | nil => simp [insertLe]
  | cons b bs ih =>
    rcases List.pairwise_cons.mp hl with ⟨hb, hbs⟩
    by_cases hba : le b a = true
    · have heq : insertLe le a (b :: bs) = b :: insertLe le a bs := by
        simp [insertLe, hba]
      rw [heq]
      refine List.pairwise_cons.mpr ⟨?_, ih hbs⟩
      intro x hx
      rcases (mem_insertLe le a x bs).mp hx with rfl | hxbs
      · exact hba
      · exact hb x hxbs
    · have hab : le a b = true := (htot a b).resolve_right hba
      have heq : insertLe le a (b :: bs) = a :: b :: bs := by simp [insertLe, hba]
      rw [heq]
      refine List.pairwise_cons.mpr ⟨?_, hl⟩
      intro x hx
      rcases List.mem_cons.mp hx with rfl | hxbs
      · exact hab
      · exact htrans a b x hab (hb x hxbs)

theorem sortLe_pairwise {α : Type} (le : α → α → Bool)
    (htot : ∀ a b, le a b = true ∨ le b a = true)
    (htrans : ∀ a b c, le a b = true → le b c = true → le a c = true)
    (l : List α) : (sortLe le l).Pairwise (fun x y => le x y = true) := by
  suffices h : ∀ (l : List α) (acc : List α), acc.Pairwise (fun x y => le x y = true) →
      (l.foldl (fun acc x => insertLe le x acc) acc).Pairwise (fun x y => le x y = true) by
    exact h l [] List.Pairwise.nil
  intro l
  induction l with
  | nil => intro acc hacc; simpa using hacc
  | cons x xs ih =>
    intro acc hacc
    simpa [List.foldl_cons] using ih (insertLe le x acc) (insertLe_pairwise le htot htrans x acc hacc)

/-- Claim C9: `applyScaler` returns its input unchanged when no scaler is
configured or when the configured mean or scale array length differs from the
vector length, and applies `(x - mean[i]) / (scale[i] or 1)` elementwise
exactly when both lengths match the vector length. -/
theorem applyScaler_passthrough_on_mismatch :
    (∀ v : List ℚ, Frost.applyScaler none v = v)
    ∧ (∀ (s : Frost.Scaler) (v : List ℚ),
        s.mean.length ≠ v.length ∨ s.scale.length ≠ v.length →
        Frost.applyScaler (some s) v = v)
    ∧ (∀ (s : Frost.Scaler) (v : List ℚ),
        s.mean.length = v.length → s.scale.length = v.length →
        Frost.applyScaler (some s) v = v.mapIdx (fun i x =>
          (x - s.mean.getD i 0) / (if s.scale.getD i 0 = 0 then 1 else s.scale.getD i 0))) := by
  refine ⟨fun v => rfl, fun s v h => ?_, fun s v h1 h2 => ?_⟩
  · simp only [Frost.applyScaler]
    rw [if_pos h]
  · simp only [Frost.applyScaler]
    rw [if_neg (by push_neg; exact ⟨h1, h2⟩)]

/-- Witness for C9: a scaler whose mean array is shorter than the vector is a
no-op on that vector. -/
theorem applyScaler_passthrough_on_mismatch_witness :
    Frost.applyScaler (some ⟨[0], [1]⟩) [1, 2] = [1, 2] :=
  applyScaler_passthrough_on_mismatch.2.1 ⟨[0], [1]⟩ [1, 2] (Or.inl (by norm_num))

/-- Claim C7: for non-null temperature and humidity the dew point is the
Magnus-form approximation with a = 17.62 and b = 243.12, the humidity fraction
floored at 1e-6 before the logarithm; the current dew point of a window is that
of the last sample's readings, and the td_spread feature is the current
temperature minus that dew point. -/
theorem dewpoint_magnus_formula :
    (∀ (log : ℚ → ℚ) (t rh : ℚ),
      Frost.dewpointC log (some t) (some rh) =
        some ((243.12 * ((17.62 * t) / (243.12 + t) + log (max 1e-6 (rh / 100)))) /
              (17.62 - ((17.62 * t) / (243.12 + t) + log (max 1e-6 (rh / 100))))))
    ∧ (∀ (log : ℚ → ℚ) (rows : List Frost.Row) (t rh : ℚ),
        Frost.lastTemp rows = some t → Frost.lastHum rows = some rh →
        Frost.dpNowOf log rows = Frost.dewpointC log (some t) (some rh))
    ∧ (∀ (log : ℚ → ℚ) (u : String → Option (Fin 24)) (rows : List Frost.Row)
        (refIso : String) (t d : ℚ),
        Frost.lastTemp rows = some t → Frost.dpNowOf log rows = some d →
        Frost.featsOf log u rows refIso "td_spread" = some (t - d))
    ∧ (∀ (log : ℚ → ℚ) (u : String → Option (Fin 24)) (rows : List Frost.Row)
        (refIso : String),
        Frost.featsOf log u rows refIso "dewpoint" = Frost.dpNowOf log rows) := by
  refine ⟨fun log t rh => rfl, fun log rows t rh h1 h2 => ?_, fun log u rows refIso t d h1 h2 => ?_,
    fun log u rows refIso => ?_⟩
  · simp [Frost.dpNowOf, h1, h2]
  · simp [Frost.featsOf, Frost.tdSpreadOf, h1, h2]
  · simp [Frost.featsOf]

/-- Witness for C7: the current dew point of a one-sample window with readings
10 °C and 50 % equals the dew point of those readings. -/
theorem dewpoint_magnus_formula_witness :
    Frost.dpNowOf (fun _ => 0) [⟨0, "x", some 10, some 50⟩] =
      Frost.dewpointC (fun _ => 0) (some 10) (some 50) :=
  dewpoint_magnus_formula.2.1 (fun _ => 0) [⟨0, "x", some 10, some 50⟩] 10 50 rfl rfl

/-- Claim C4: when the scorer call fails — network rejection, non-success HTTP
status, or response parse failure — the poll cycle publishes a snapshot whose
error field carries the failure message and whose item list is empty,
discarding the previous snapshot's items; `pollStep` is a total function, so no
exception escapes it. -/
theorem poll_failure_empties_snapshot :
    (∀ (θ : ℚ) (dparse : String → Option ℚ) (le : String → String → Bool)
       (now msg : String) (prev : Sta.StaState),
      Sta.pollStep θ dparse le now (.error msg) prev =
        { lastRunAt := some now, items := [], error := some msg })
    ∧ (∀ (parse : String → Except String Sta.PredJson) (m : String),
        Sta.fetchToJson parse (.netErr m) = .error m)
    ∧ (∀ (parse : String → Except String Sta.PredJson) (status : Nat) (text : String),
        Sta.fetchToJson parse (.response false status text) =
          .error ("Predictor " ++ toString status ++ ": " ++ text))
    ∧ (∀ (parse : String → Except String Sta.PredJson) (status : Nat) (text e : String),
        parse text = .error e →
        Sta.fetchToJson parse (.response true status text) = .error e) := by
  refine ⟨fun θ dparse le now msg prev => rfl, fun parse m => rfl,
    fun parse status text => rfl, fun parse status text e h => ?_⟩
  simpa [Sta.fetchToJson] using h

/-- Witness for C4: a response whose body fails to parse yields the parse
failure's message. -/
theorem poll_failure_empties_snapshot_witness :
    Sta.fetchToJson (fun _ => Except.error "bad json") (.response true 200 "x") =
      Except.error "bad json" :=
  poll_failure_empties_snapshot.2.2.2 (fun _ => Except.error "bad json") 200 "x" "bad json" rfl

theorem dedupStep_snd_mem (dparse : String → Option ℚ) (m : List (String × Sta.StaItem))
    (it : Sta.StaItem) (p : String × Sta.StaItem) (hp : p ∈ Sta.dedupStep dparse m it) :
    p.2 ∈ m.map (fun q => q.2) ∨ p.2 = it := by
  cases hfind : m.find? (fun q => q.1 == it.sensorName) with
  | none =>
    simp only [Sta.dedupStep, hfind] at hp
    rcases List.mem_append.mp hp with hm | hone
    · exact Or.inl (List.mem_map.mpr ⟨p, hm, rfl⟩)
    · rcases List.mem_singleton.mp hone with rfl
      exact Or.inr rfl
  | some pr =>
    simp only [Sta.dedupStep, hfind] at hp
    by_cases hgt : Sta.jsGt (Sta.tmsOfNew dparse it) (Sta.tmsOfPrev dparse pr.2) = true
    · rw [if_pos hgt] at hp
      rcases List.mem_map.mp hp with ⟨q, hq, rfl⟩
      by_cases hk : (q.1 == it.sensorName) = true
      · simp [hk]
      · simp only [hk]
        simp only [Bool.false_eq_true, if_false]
        exact Or.inl (List.mem_map.mpr ⟨q, hq, rfl⟩)
    · rw [if_neg hgt] at hp
      exact Or.inl (List.mem_map.mpr ⟨p, hp, rfl⟩)

theorem dedupFold_snd_subset (dparse : String → Option ℚ) (items : List Sta.StaItem) :
    ∀ (m : List (String × Sta.StaItem)) (p : String × Sta.StaItem),
      p ∈ items.foldl (Sta.dedupStep dparse) m → p.2 ∈ m.map (fun q => q.2) ∨ p.2 ∈ items := by
  induction items with
  | nil => intro m p hp; exact Or.inl (List.mem_map.mpr ⟨p, hp, rfl⟩)
  | cons it rest ih =>
    intro m p hp
    rcases ih (Sta.dedupStep dparse m it) p (by simpa [List.foldl_cons] using hp) with hm | hr
    · rcases List.mem_map.mp hm with ⟨q, hq, hq2⟩
      rcases dedupStep_snd_mem dparse m it q hq with hmm | heq
      · exact Or.inl (hq2 ▸ hmm)
      · exact Or.inr (by rw [← hq2, heq]; exact List.mem_cons_self it rest)
    · exact Or.inr (List.mem_cons_of_mem it hr)

/-- Claim C2: a scored row with a null probability is decided UNKNOWN, one with
probability at least the threshold TAKE ACTION, and any other NO ACTION; every
item published by a successful poll cycle carries exactly that decision for its
own score; with threshold 0.8, probability 0.85 is TAKE ACTION, 0.79 is
NO ACTION, and null is UNKNOWN. -/
theorem decision_thresholding :
    (∀ (θ : ℚ) (p : Sta.PredPoint), p.score = none → (Sta.mkItem θ p).decision = .UNKNOWN)
    ∧ (∀ (θ : ℚ) (p : Sta.PredPoint) (s : ℚ), p.score = some s → θ ≤ s →
        (Sta.mkItem θ p).decision = .TAKE_ACTION)
    ∧ (∀ (θ : ℚ) (p : Sta.PredPoint) (s : ℚ), p.score = some s → s < θ →
        (Sta.mkItem θ p).decision = .NO_ACTION)
    ∧ (∀ (θ : ℚ) (dparse : String → Option ℚ) (le : String → String → Bool)
        (now : String) (json : Sta.PredJson) (prev : Sta.StaState) (it : Sta.StaItem),
        it ∈ (Sta.pollStep θ dparse le now (.ok json) prev).items →
        it.decision = Sta.decisionOf θ it.score)
    ∧ Sta.decisionOf 0.8 (some 0.85) = .TAKE_ACTION
    ∧ Sta.decisionOf 0.8 (some 0.79) = .NO_ACTION
    ∧ Sta.decisionOf 0.8 none = .UNKNOWN := by
  refine ⟨fun θ p h => ?_, fun θ p s h hs => ?_, fun θ p s h hs => ?_,
    fun θ dparse le now json prev it hit => ?_, by norm_num [Sta.decisionOf],
    by norm_num [Sta.decisionOf], rfl⟩
  · simp [Sta.mkItem, Sta.decisionOf, h]
  · simp [Sta.mkItem, Sta.decisionOf, h, hs]
  · simp [Sta.mkItem, Sta.decisionOf, h, not_le.mpr hs]
  · simp only [Sta.pollStep, Sta.dedupSort] at hit
    have hmem := (mem_sortLe _ it _).mp hit
    rcases List.mem_map.mp hmem with ⟨q, hq, hq2⟩
    rcases dedupFold_snd_subset dparse (json.points.map (Sta.mkItem θ)) [] q hq with h0 | hin
    · simp at h0
    · rw [← hq2]
      rcases List.mem_map.mp hin with ⟨pt, _, hpt⟩
      rw [← hpt]
      rfl

/-- Witness for C2: a point scored 0.85 against threshold 0.8 is decided
TAKE ACTION. -/
theorem decision_thresholding_witness :
    (Sta.mkItem 0.8 ⟨some "s1", some "t", some 0.85⟩).decision = .TAKE_ACTION :=
  decision_thresholding.2.1 0.8 ⟨some "s1", some "t", some 0.85⟩ 0.85 rfl (by norm_num)

theorem applyScaler_length (sc : Option Frost.Scaler) (v : List ℚ) :
    (Frost.applyScaler sc v).length = v.length := by
  cases sc with
  | none => rfl
  | some s =>
    simp only [Frost.applyScaler]
    split
    · rfl
    · simp [List.length_mapIdx]

theorem padTruncate36_length (v : List ℚ) : (Frost.padTruncate36 v).1.length = 36 := by
  simp only [Frost.padTruncate36]
  split
  · assumption
  · split
    · simp only [List.length_append, List.length_replicate]
      omega
    · simp only [List.length_take]
      omega

/-- Claim C5: for every window, reference time and configured feature-name list
(of any length, 30, 36 and 40 included), the assembled feature vector has
length exactly 36; a short vector is zero-padded and a long one truncated, and
the repair warning fires exactly when the configured list does not have 36
names. -/
theorem feature_vector_always_36 :
    (∀ (log : ℚ → ℚ) (u : String → Option (Fin 24)) (sc : Option Frost.Scaler)
       (names : List String) (rows : List Frost.Row) (refIso : String),
      (Frost.buildFeatureVectorFromWindow log u sc names rows refIso).length = 36)
    ∧ (∀ (log : ℚ → ℚ) (u : String → Option (Fin 24)) (sc : Option Frost.Scaler)
        (names : List String) (rows : List Frost.Row) (refIso : String),
        ((Frost.buildFeatureVectorW log u sc names rows refIso).2 = true ↔ names.length ≠ 36))
    ∧ (∀ v : List ℚ, v.length ≤ 36 →
        (Frost.padTruncate36 v).1 = v ++ List.replicate (36 - v.length) 0)
    ∧ (∀ v : List ℚ, 36 ≤ v.length → (Frost.padTruncate36 v).1 = v.take 36) := by
  refine ⟨fun log u sc names rows refIso => padTruncate36_length _,
    fun log u sc names rows refIso => ?_, fun v hv => ?_, fun v hv => ?_⟩
  · have hlen : (Frost.applyScaler sc (Frost.rawFeatureVec log u names rows refIso)).length
        = names.length := by
      rw [applyScaler_length]
      simp [Frost.rawFeatureVec]
    simp only [Frost.buildFeatureVectorW, Frost.padTruncate36]
    split
    · rename_i h36
      rw [hlen] at h36
      simp [h36]
    · rename_i h36
      rw [hlen] at h36
      split <;> simp [h36]
  · simp only [Frost.padTruncate36]
    split
    · rename_i h36
      simp [h36]
    · split
      · rfl
      · omega
  · simp only [Frost.padTruncate36]
    split
    · rename_i h36
      rw [← h36, List.take_length]
    · split
      · omega
      · rfl

/-- Witness for C5: a 2-element vector is padded with 34 zeros. -/
theorem feature_vector_always_36_witness :
    (Frost.padTruncate36 [1, 2]).1 = [1, 2] ++ List.replicate 34 0 := by
  have h := feature_vector_always_36.2.2.1 [1, 2] (by norm_num)
  simpa using h

/-- Claim C10: the hour-bin encoder always returns four values, each 0 or 1; on
a valid instant exactly the entry at index `hour / 6` is 1, on an invalid one
all four entries are 0; consequently the four hr_bin features of the computed
feature map sum to at most 1. -/
theorem hourbin4_onehot :
    (∀ (u : String → Option (Fin 24)) (s : String), (Frost.hourBin4 u s).length = 4)
    ∧ (∀ (u : String → Option (Fin 24)) (s : String) (x : ℚ),
        x ∈ Frost.hourBin4 u s → x = 0 ∨ x = 1)
    ∧ (∀ (u : String → Option (Fin 24)) (s : String) (h : Fin 24), u s = some h →
        ((Frost.hourBin4 u s).getD (h.val / 6) 0 = 1 ∧
         ∀ i : Nat, i < 4 → i ≠ h.val / 6 → (Frost.hourBin4 u s).getD i 0 = 0))
    ∧ (∀ (u : String → Option (Fin 24)) (s : String), u s = none →
        Frost.hourBin4 u s = [0, 0, 0, 0])
    ∧ (∀ (u : String → Option (Fin 24)) (s : String), (Frost.hourBin4 u s).sum ≤ 1)
    ∧ (∀ (log : ℚ → ℚ) (u : String → Option (Fin 24)) (rows : List Frost.Row)
        (refIso : String),
        (Frost.featsOf log u rows refIso "hr_bin_0").getD 0 +
        (Frost.featsOf log u rows refIso "hr_bin_1").getD 0 +
        (Frost.featsOf log u rows refIso "hr_bin_2").getD 0 +
        (Frost.featsOf log u rows refIso "hr_bin_3").getD 0 ≤ 1) := by
  have hsum : ∀ (u : String → Option (Fin 24)) (s : String), (Frost.hourBin4 u s).sum ≤ 1 := by
    intro u s
    cases hu : u s with
    | none => simp [Frost.hourBin4, hu]
    | some h =>
      have hbin : h.val / 6 = 0 ∨ h.val / 6 = 1 ∨ h.val / 6 = 2 ∨ h.val / 6 = 3 := by omega
      rcases hbin with h' | h' | h' | h' <;> simp [Frost.hourBin4, hu, h']
  refine ⟨fun u s => ?_, fun u s x hx => ?_, fun u s h hu => ⟨?_, fun i hi hne => ?_⟩,
    fun u s hu => ?_, hsum, fun log u rows refIso => ?_⟩
  · cases hu : u s <;> simp [Frost.hourBin4, hu]
  · cases hu : u s with
    | none =>
      simp [Frost.hourBin4, hu] at hx
      simp [hx]
    | some h =>
      simp [Frost.hourBin4, hu] at hx
      rcases hx with rfl | rfl | rfl | rfl <;> split <;> simp
  · have hbin : h.val / 6 = 0 ∨ h.val / 6 = 1 ∨ h.val / 6 = 2 ∨ h.val / 6 = 3 := by omega
    rcases hbin with h' | h' | h' | h' <;> simp [Frost.hourBin4, hu, h']
  · interval_cases i <;> simp [Frost.hourBin4, hu] <;> intro hcontra <;>
      exact absurd hcontra.symm (by omega)
  · simp [Frost.hourBin4, hu]
  · have h0 : Frost.featsOf log u rows refIso "hr_bin_0" =
        some ((Frost.hourBin4 u refIso).getD 0 0) := by simp [Frost.featsOf]
    have h1 : Frost.featsOf log u rows refIso "hr_bin_1" =
        some ((Frost.hourBin4 u refIso).getD 1 0) := by simp [Frost.featsOf]
    have h2 : Frost.featsOf log u rows refIso "hr_bin_2" =
        some ((Frost.hourBin4 u refIso).getD 2 0) := by simp [Frost.featsOf]
    have h3 : Frost.featsOf log u rows refIso "hr_bin_3" =
        some ((Frost.hourBin4 u refIso).getD 3 0) := by simp [Frost.featsOf]
    rw [h0, h1, h2, h3]
    simp only [Option.getD_some]
    cases hu : u refIso with
    | none => simp [Frost.hourBin4, hu]
    | some h =>
      have hbin : h.val / 6 = 0 ∨ h.val / 6 = 1 ∨ h.val / 6 = 2 ∨ h.val / 6 = 3 := by omega
      rcases hbin with h' | h' | h' | h' <;> simp [Frost.hourBin4, hu, h']

/-- Witness for C10: at UTC hour 13 the third bin (index 2) is hot and the
others are cold. -/
theorem hourbin4_onehot_witness :
    (Frost.hourBin4 (fun _ => some 13) "t").getD (13 / 6) 0 = 1 ∧
    ∀ i : Nat, i < 4 → i ≠ 13 / 6 → (Frost.hourBin4 (fun _ => some 13) "t").getD i 0 = 0 :=
  hourbin4_onehot.2.2.1 (fun _ => some 13) "t" 13 rfl

theorem takeWhile_eq_filter_of_mono {α : Type} (p : α → Bool) (l : List α)
    (h : l.Pairwise (fun a b => p b = true → p a = true)) :
    l.takeWhile p = l.filter p := by
  induction l with
  | nil => rfl
  | cons a as ih =>
    rcases List.pairwise_cons.mp h with ⟨ha, has⟩
    cases hp : p a with
    | true => simp [List.takeWhile_cons, List.filter_cons, hp, ih has]
    | false =>
      have hnil : as.filter p = [] := by
        refine List.filter_eq_nil_iff.mpr (fun b hb => ?_)
        intro hpb
        exact absurd (ha b hb hpb) (by simp [hp])
      simp [List.takeWhile_cons, List.filter_cons, hp, hnil]

/-- Claim C6: on a series sorted ascending by timestamp, `sliceHours h` returns
exactly the samples whose timestamp is at least the anchor's timestamp minus
`h * 3600000` milliseconds, the anchor being the last sample, and the result is
a contiguous suffix of the series. -/
theorem sliceHours_suffix_spec (rows : List Frost.Row) (h : ℚ) (anchor : Frost.Row)
    (hsort : rows.Pairwise (fun a b => a.t ≤ b.t)) (hlast : rows.getLast? = some anchor) :
    Frost.sliceHours rows h =
      rows.filter (fun r => decide (anchor.t - h * 3600 * 1000 ≤ r.t))
    ∧ Frost.sliceHours rows h <:+ rows := by
  set p : Frost.Row → Bool := fun r => decide (anchor.t - h * 3600 * 1000 ≤ r.t) with hp
  have hdef : Frost.sliceHours rows h = (rows.reverse.takeWhile p).reverse := by
    simp [Frost.sliceHours, hlast, hp]
  have hmono : rows.reverse.Pairwise (fun a b => p b = true → p a = true) := by
    rw [List.pairwise_reverse]
    refine hsort.imp ?_
    intro a b hab hpa
    have h1 : anchor.t - h * 3600 * 1000 ≤ a.t := of_decide_eq_true hpa
    exact decide_eq_true (le_trans h1 hab)
  constructor
  · rw [hdef, takeWhile_eq_filter_of_mono p _ hmono, List.filter_reverse, List.reverse_reverse]
  · rw [hdef]
    have hpre := List.takeWhile_prefix (l := rows.reverse) p
    exact List.reverse_prefix.mp (by simpa [List.reverse_reverse] using hpre)

/-- Witness for C6: on a sorted two-sample series with a one-hour window, only
the last sample survives and it is a suffix of the series. -/
theorem sliceHours_suffix_spec_witness :
    Frost.sliceHours [⟨0, "a", none, none⟩, ⟨7200000, "b", none, none⟩] 1 =
      [⟨0, "a", none, none⟩, ⟨7200000, "b", none, none⟩].filter
        (fun r => decide ((7200000 : ℚ) - 1 * 3600 * 1000 ≤ r.t))
    ∧ Frost.sliceHours [⟨0, "a", none, none⟩, ⟨7200000, "b", none, none⟩] 1 <:+
        [⟨0, "a", none, none⟩, ⟨7200000, "b", none, none⟩] :=
  sliceHours_suffix_spec [⟨0, "a", none, none⟩, ⟨7200000, "b", none, none⟩] 1
    ⟨7200000, "b", none, none⟩ (by norm_num [List.pairwise_cons]) rfl

theorem get?_eq_some_getD {l : List ℚ} {i : Nat} (h : i < l.length) :
    l.get? i = some (l.getD i 0) := by
  rw [List.get?_eq_getElem?, List.getD_eq_getElem?_getD, List.getElem?_eq_getElem h]
  rfl

/-- Claim C1: the scoring adapter selects the output tensor by preferring a
name containing `prob` case-insensitively, else any 2-dimensional output, else
the first declared output (granted that declared names are non-empty strings,
as ONNX requires); for a `[N, 2]` tensor it returns column 1 of each row, for
`[N, 1]` the single column, for `[N, C]` with `C > 2` the row-wise maximum, for
`[N]` the scalars directly, and for any other shape the raw data; the three
concrete extractions of the specification evaluate as stated. -/
theorem extractProbs_shape_dispatch :
    (∀ (names : List String) (ro : List (String × Frost.OrtTensor)), "" ∉ names →
      Frost.chooseName names ro =
        ((names.find? Frost.probMatch).or
          ((names.find? (Frost.is2dOutput ro)).or names.head?)))
    ∧ (∀ (names : List String) (ro : List (String × Frost.OrtTensor))
        (n : String) (t : Frost.OrtTensor),
        Frost.chooseName names ro = some n → Frost.lookupT ro n = some t →
        Frost.extractProbs names ro = Frost.extractFromTensor t)
    ∧ (∀ (t : Frost.OrtTensor) (N : Nat), t.dims = [N, 2] → t.data.length = 2 * N →
        Frost.extractFromTensor t =
          some ((List.range N).map (fun i => t.data.getD (i * 2 + 1) 0)))
    ∧ (∀ (t : Frost.OrtTensor) (N : Nat), t.dims = [N, 1] → t.data.length = N →
        Frost.extractFromTensor t = some t.data)
    ∧ (∀ (t : Frost.OrtTensor) (N C : Nat), t.dims = [N, C] → 2 < C →
        t.data.length = N * C →
        Frost.extractFromTensor t =
          some ((List.range N).map (fun i => (Frost.rowSlice t.data C i).max?.getD 0)))
    ∧ (∀ (t : Frost.OrtTensor) (N : Nat), t.dims = [N] → t.data.length = N →
        Frost.extractFromTensor t = some t.data)
    ∧ (∀ t : Frost.OrtTensor, t.dims.length ≠ 2 → t.dims.length ≠ 1 →
        Frost.extractFromTensor t = some t.data)
    ∧ Frost.extractProbs ["probabilities"]
        [("probabilities", ⟨[3, 2], [0.9, 0.1, 0.2, 0.8, 0.5, 0.5]⟩)] =
        some [0.1, 0.8, 0.5]
    ∧ Frost.extractProbs ["output"] [("output", ⟨[2, 1], [0.3, 0.7]⟩)] = some [0.3, 0.7]
    ∧ Frost.extractProbs ["output"] [("output", ⟨[1], [0.42]⟩)] = some [0.42] := by
  refine ⟨fun names ro hne => ?_, fun names ro n t hc hl => ?_,
    fun t N hdims hlen => ?_, fun t N hdims hlen => ?_, fun t N C hdims hC hlen => ?_,
    fun t N hdims hlen => ?_, fun t h2 h1 => ?_, rfl, rfl, rfl⟩
  · cases hf1 : names.find? Frost.probMatch with
    | some s =>
      have hs : s ≠ "" := fun h => hne (h ▸ List.mem_of_find?_eq_some hf1)
      simp [Frost.chooseName, hf1, Frost.jsOrName, hs]
    | none =>
      cases hf2 : names.find? (Frost.is2dOutput ro) with
      | some s =>
        have hs : s ≠ "" := fun h => hne (h ▸ List.mem_of_find?_eq_some hf2)
        simp [Frost.chooseName, hf1, hf2, Frost.jsOrName, hs]
      | none => simp [Frost.chooseName, hf1, hf2, Frost.jsOrName, Option.none_or]
  · simp [Frost.extractProbs, hc, hl, Option.or]
  · have hget : ∀ i ∈ List.range N, t.data.get? (i * 2 + 1) =
        some (t.data.getD (i * 2 + 1) 0) := by
      intro i hi
      have hiN := List.mem_range.mp hi
      exact get?_eq_some_getD (by omega)
    simp only [Frost.extractFromTensor, hdims]
    rw [if_pos (show ([N, 2] : List Nat).length = 2 from rfl),
        if_pos (show ([N, 2] : List Nat).getD 1 0 = 2 from rfl)]
    show Frost.mapOpt (fun i => t.data.get? (i * 2 + 1)) (List.range N) =
      some ((List.range N).map (fun i => t.data.getD (i * 2 + 1) 0))
    exact mapOpt_eq_some_map _ _ _ hget
  · simp only [Frost.extractFromTensor, hdims]
    rw [if_pos (show ([N, 1] : List Nat).length = 2 from rfl)]
    rw [if_neg (show ¬([N, 1] : List Nat).getD 1 0 = 2 by simp),
        if_pos (show ([N, 1] : List Nat).getD 1 0 = 1 from rfl)]
    show some (t.data.take N) = some t.data
    rw [← hlen, List.take_length]
  · have hget : ∀ i, i < N → ∀ j ∈ List.range C, t.data.get? (i * C + j) =
        some (t.data.getD (i * C + j) 0) := by
      intro i hi j hj
      have hjC := List.mem_range.mp hj
      have hstep : (i + 1) * C = i * C + C := by ring
      have hle : (i + 1) * C ≤ N * C := Nat.mul_le_mul_right C (by omega)
      exact get?_eq_some_getD (by omega)
    have houter : ∀ i ∈ List.range N,
        (Frost.mapOpt (fun j => t.data.get? (i * C + j)) (List.range C)).bind List.max? =
          some ((Frost.rowSlice t.data C i).max?.getD 0) := by
      intro i hi
      have hiN := List.mem_range.mp hi
      rw [mapOpt_eq_some_map _ _ (fun j => t.data.getD (i * C + j) 0) (hget i hiN)]
      have hne : Frost.rowSlice t.data C i ≠ [] := by
        intro hnil
        have := congrArg List.length hnil
        simp [Frost.rowSlice] at this
        omega
      obtain ⟨m, hm⟩ : ∃ m, (Frost.rowSlice t.data C i).max? = some m := by
        cases hr : Frost.rowSlice t.data C i with
        | nil => exact absurd hr hne
        | cons x xs => exact ⟨_, by rw [List.max?_cons]⟩
      rw [show ((List.range C).map (fun j => t.data.getD (i * C + j) 0)) =
            Frost.rowSlice t.data C i from rfl]
      simp [hm]
    simp only [Frost.extractFromTensor, hdims]
    have hC2 : ([N, C] : List Nat).getD 1 0 ≠ 2 := by simp; omega
    have hC1 : ([N, C] : List Nat).getD 1 0 ≠ 1 := by simp; omega
    rw [if_pos (show ([N, C] : List Nat).length = 2 from rfl), if_neg hC2, if_neg hC1]
    show Frost.mapOpt (fun i =>
        (Frost.mapOpt (fun j => t.data.get? (i * C + j)) (List.range C)).bind List.max?)
        (List.range N) =
      some ((List.range N).map (fun i => (Frost.rowSlice t.data C i).max?.getD 0))
    exact mapOpt_eq_some_map _ _ _ houter
  · simp only [Frost.extractFromTensor, hdims]
    rw [if_neg (show ¬([N] : List Nat).length = 2 by simp),
        if_pos (show ([N] : List Nat).length = 1 from rfl)]
    show some (t.data.take (if N = 0 then t.data.length else N)) = some t.data
    by_cases hN : N = 0
    · rw [if_pos hN, List.take_length]
    · rw [if_neg hN, ← hlen, List.take_length]
  · simp only [Frost.extractFromTensor]
    rw [if_neg h2, if_neg h1]

/-- Witness for C1: a `[2, 1]` tensor with exact-length data extracts to its
single column. -/
theorem extractProbs_shape_dispatch_witness :
    Frost.extractFromTensor ⟨[2, 1], [0.3, 0.7]⟩ = some [0.3, 0.7] :=
  extractProbs_shape_dispatch.2.2.2.1 ⟨[2, 1], [0.3, 0.7]⟩ 2 rfl rfl

theorem bvmStep_lockstep (cfg : Frost.FrostCfg) (isoOf : ℚ → String) (mode : Frost.BatchMode)
    (acc : List (List ℚ) × List (String × String)) (g : String × List Frost.Row)
    (h : acc.1.length = acc.2.length) :
    (Frost.bvmStep cfg isoOf mode acc g).1.length =
      (Frost.bvmStep cfg isoOf mode acc g).2.length := by
  unfold Frost.bvmStep
  cases g.2.getLast? with
  | none => exact h
  | some lastR =>
    by_cases hf : mode.asForward = false <;> simp [hf, h]

theorem buildVecsMetas_lockstep (cfg : Frost.FrostCfg) (isoOf : ℚ → String)
    (mode : Frost.BatchMode) (groups : List (String × List Frost.Row)) :
    (Frost.buildVecsMetas cfg isoOf mode groups).1.length =
      (Frost.buildVecsMetas cfg isoOf mode groups).2.length := by
  suffices h : ∀ (groups : List (String × List Frost.Row))
      (acc : List (List ℚ) × List (String × String)), acc.1.length = acc.2.length →
      (groups.foldl (Frost.bvmStep cfg isoOf mode) acc).1.length =
        (groups.foldl (Frost.bvmStep cfg isoOf mode) acc).2.length by
    exact h groups ([], []) rfl
  intro groups
  induction groups with
  | nil => intro acc hacc; exact hacc
  | cons g gs ih =>
    intro acc hacc
    simpa [List.foldl_cons] using ih _ (bvmStep_lockstep cfg isoOf mode acc g hacc)

theorem buildBatches_metas_eq (cfg : Frost.FrostCfg) (dparse : String → Option ℚ)
    (isoOf : ℚ → String) (mode : Frost.BatchMode) (docs : List Frost.RawDoc) :
    (Frost.buildBatches cfg dparse isoOf mode docs).metas =
      (Frost.buildVecsMetas cfg isoOf mode (Frost.sortedGroups dparse docs)).2 := by
  simp only [Frost.buildBatches]
  split <;> rfl

theorem buildBatches_of_no_vectors (cfg : Frost.FrostCfg) (dparse : String → Option ℚ)
    (isoOf : ℚ → String) (mode : Frost.BatchMode) (docs : List Frost.RawDoc)
    (h : (Frost.buildBatches cfg dparse isoOf mode docs).metas = []) :
    Frost.buildBatches cfg dparse isoOf mode docs = ⟨[0, 36], [], []⟩ := by
  have h2 : (Frost.buildVecsMetas cfg isoOf mode (Frost.sortedGroups dparse docs)).2 = [] := by
    rw [← buildBatches_metas_eq]; exact h
  have h1 : (Frost.buildVecsMetas cfg isoOf mode (Frost.sortedGroups dparse docs)).1 = [] := by
    refine List.length_eq_zero.mp ?_
    rw [buildVecsMetas_lockstep, h2]
    rfl
  simp only [Frost.buildBatches]
  rw [if_pos (by rw [List.isEmpty_iff]; exact h1), h2]

/-- Claim C8: the built tensor always has shape `[rowCount, 36]` with one row
per metadata record; when no sensor produces a feature vector the matrix has
shape `[0, 36]` with empty data and metadata, and the scoring request then
responds with HTTP 200 carrying `count` 0 and empty points, with no error. -/
theorem empty_batch_is_valid :
    (∀ (cfg : Frost.FrostCfg) (dparse : String → Option ℚ) (isoOf : ℚ → String)
       (mode : Frost.BatchMode) (docs : List Frost.RawDoc),
      (Frost.buildBatches cfg dparse isoOf mode docs).dims =
        [(Frost.buildBatches cfg dparse isoOf mode docs).metas.length, 36])
    ∧ (∀ (cfg : Frost.FrostCfg) (dparse : String → Option ℚ) (isoOf : ℚ → String)
        (mode : Frost.BatchMode) (docs : List Frost.RawDoc),
        (Frost.buildBatches cfg dparse isoOf mode docs).metas = [] →
        (Frost.buildBatches cfg dparse isoOf mode docs).dims = [0, 36] ∧
        (Frost.buildBatches cfg dparse isoOf mode docs).data = [])
    ∧ (∀ (cfg : Frost.FrostCfg) (dparse : String → Option ℚ) (isoOf : ℚ → String)
        (outNames : List String) (run : Frost.Batch → List (String × Frost.OrtTensor))
        (mode : Frost.BatchMode) (docs : List Frost.RawDoc),
        (Frost.buildBatches cfg dparse isoOf mode docs).metas = [] →
        Frost.predictResponse cfg dparse isoOf outNames run mode docs =
          ⟨200, mode.asForward, mode.horizonH, 0, [], none⟩) := by
  refine ⟨fun cfg dparse isoOf mode docs => ?_, fun cfg dparse isoOf mode docs h => ?_,
    fun cfg dparse isoOf outNames run mode docs h => ?_⟩
  · have hlen := buildVecsMetas_lockstep cfg isoOf mode (Frost.sortedGroups dparse docs)
    simp only [Frost.buildBatches]
    split
    · rename_i hEmpty
      have h1 : (Frost.buildVecsMetas cfg isoOf mode (Frost.sortedGroups dparse docs)).1 = [] :=
        List.isEmpty_iff.mp hEmpty
      have : (Frost.buildVecsMetas cfg isoOf mode (Frost.sortedGroups dparse docs)).2.length = 0 := by
        rw [← hlen, h1]
        rfl
      simp [this]
    · rw [hlen]
  · rw [buildBatches_of_no_vectors cfg dparse isoOf mode docs h]
    exact ⟨rfl, rfl⟩
  · have hb := buildBatches_of_no_vectors cfg dparse isoOf mode docs h
    simp only [Frost.predictResponse, hb]
    rfl

/-- Witness for C8: with no input documents the scoring request responds 200
with zero count and no points. -/
theorem empty_batch_is_valid_witness :
    Frost.predictResponse ⟨fun _ => 0, fun _ => none, none, [], 8⟩ (fun _ => none)
        (fun _ => "") [] (fun _ => []) ⟨false, 8⟩ [] =
      ⟨200, false, 8, 0, [], none⟩ :=
  empty_batch_is_valid.2.2 ⟨fun _ => 0, fun _ => none, none, [], 8⟩ (fun _ => none)
    (fun _ => "") [] (fun _ => []) ⟨false, 8⟩ [] rfl

theorem find?_map_keyfix {β : Type} (m : List (String × β)) (f : String × β → String × β)
    (hf : ∀ p, (f p).1 = p.1) (k : String) :
    (m.map f).find? (fun p => p.1 == k) = (m.find? (fun p => p.1 == k)).map f := by
  induction m with
  | nil => rfl
  | cons p ps ih =>
    by_cases hk : (p.1 == k) = true
    · simp only [List.map_cons, List.find?_cons, hf p, hk, Option.map_some']
    · simp only [List.map_cons, List.find?_cons, hf p, hk]
      simpa using ih

theorem dedupStep_lookup_hit (dparse : String → Option ℚ)
    (m : List (String × Sta.StaItem)) (it : Sta.StaItem) :
    ((Sta.dedupStep dparse m it).find? (fun p => p.1 == it.sensorName)).map (fun p => p.2)
      = Sta.retainStep dparse
          ((m.find? (fun p => p.1 == it.sensorName)).map (fun p => p.2)) it := by
  cases hfind : m.find? (fun p => p.1 == it.sensorName) with
  | none =>
    simp only [Sta.dedupStep, hfind, Option.map_none']
    rw [List.find?_append, hfind]
    simp [Sta.retainStep]
  | some pr =>
    have hpr : (pr.1 == it.sensorName) = true := by
      have h := List.find?_some hfind
      exact h
    simp only [Sta.dedupStep, hfind, Option.map_some']
    by_cases hgt : Sta.jsGt (Sta.tmsOfNew dparse it) (Sta.tmsOfPrev dparse pr.2) = true
    · rw [if_pos hgt]
      have hkeyfix : ∀ p : String × Sta.StaItem,
          ((if (p.1 == it.sensorName) = true then (p.1, it) else p)).1 = p.1 := by
        intro p; split <;> rfl
      rw [find?_map_keyfix m _ hkeyfix, hfind]
      simp only [Option.map_some', hpr, if_pos rfl]
      simp [Sta.retainStep, hgt]
    · rw [if_neg hgt, hfind]
      simp [Sta.retainStep, hgt]

theorem dedupStep_lookup_miss (dparse : String → Option ℚ)
    (m : List (String × Sta.StaItem)) (it : Sta.StaItem) (k : String)
    (hk : (it.sensorName == k) = false) :
    (Sta.dedupStep dparse m it).find? (fun p => p.1 == k) =
      m.find? (fun p => p.1 == k) := by
  cases hfind : m.find? (fun p => p.1 == it.sensorName) with
  | none =>
    simp only [Sta.dedupStep, hfind]
    rw [List.find?_append]
    have hsingle : ([(it.sensorName, it)].find? (fun p => p.1 == k)) = none := by
      simp [List.find?_cons, hk]
    rw [hsingle, Option.or_none]
  | some pr =>
    simp only [Sta.dedupStep, hfind]
    by_cases hgt : Sta.jsGt (Sta.tmsOfNew dparse it) (Sta.tmsOfPrev dparse pr.2) = true
    · rw [if_pos hgt]
      have hkeyfix : ∀ p : String × Sta.StaItem,
          ((if (p.1 == it.sensorName) = true then (p.1, it) else p)).1 = p.1 := by
        intro p; split <;> rfl
      rw [find?_map_keyfix m _ hkeyfix]
      cases hfk : m.find? (fun p => p.1 == k) with
      | none => rfl
      | some q =>
        have hq : (q.1 == k) = true := by
          have h := List.find?_some hfk
          exact h
        have hqk : q.1 = k := beq_iff_eq.mp hq
        have hqs : (q.1 == it.sensorName) = false := by
          rw [hqk]
          cases hks : (k == it.sensorName) with
          | false => rfl
          | true =>
            have := beq_iff_eq.mp hks
            rw [this] at hk
            simp at hk
        have hne : q.1 ≠ it.sensorName := by
          intro he
          rw [he] at hqs
          simp at hqs
        simp [hqs]
        intro h'
        exact absurd h' hne
    · rw [if_neg hgt]

theorem dedupFold_lookup (dparse : String → Option ℚ) (items : List Sta.StaItem) :
    ∀ (m : List (String × Sta.StaItem)) (k : String),
      ((items.foldl (Sta.dedupStep dparse) m).find? (fun p => p.1 == k)).map (fun p => p.2)
      = (items.filter (fun x => x.sensorName == k)).foldl (Sta.retainStep dparse)
          ((m.find? (fun p => p.1 == k)).map (fun p => p.2)) := by
  induction items with
  | nil => intro m k; rfl
  | cons it rest ih =>
    intro m k
    rw [List.foldl_cons, List.filter_cons, ih]
    by_cases hk : (it.sensorName == k) = true
    · have hks : it.sensorName = k := beq_iff_eq.mp hk
      subst hks
      rw [if_pos hk, List.foldl_cons, dedupStep_lookup_hit]
    · rw [if_neg hk, dedupStep_lookup_miss dparse m it k (by simpa using hk)]

theorem dedupFold_key_inv (dparse : String → Option ℚ) (items : List Sta.StaItem) :
    ∀ (m : List (String × Sta.StaItem)), (∀ p ∈ m, p.1 = p.2.sensorName) →
      ∀ p ∈ items.foldl (Sta.dedupStep dparse) m, p.1 = p.2.sensorName := by
  induction items with
  | nil => intro m hm; exact hm
  | cons it rest ih =>
    intro m hm
    refine ih (Sta.dedupStep dparse m it) ?_
    intro p hp
    cases hfind : m.find? (fun q => q.1 == it.sensorName) with
    | none =>
      simp only [Sta.dedupStep, hfind] at hp
      rcases List.mem_append.mp hp with hin | hone
      · exact hm p hin
      · rcases List.mem_singleton.mp hone with rfl
        rfl
    | some pr =>
      simp only [Sta.dedupStep, hfind] at hp
      by_cases hgt : Sta.jsGt (Sta.tmsOfNew dparse it) (Sta.tmsOfPrev dparse pr.2) = true
      · rw [if_pos hgt] at hp
        rcases List.mem_map.mp hp with ⟨q, hq, rfl⟩
        by_cases hqs : (q.1 == it.sensorName) = true
        · simp only [hqs, if_pos rfl]
          exact beq_iff_eq.mp hqs
        · simp only [hqs]
          simp only [Bool.false_eq_true, if_false]
          exact hm q hq
      · rw [if_neg hgt] at hp
        exact hm p hp

theorem dedupFold_keys_nodup (dparse : String → Option ℚ) (items : List Sta.StaItem) :
    ∀ (m : List (String × Sta.StaItem)), (m.map (fun p => p.1)).Nodup →
      ((items.foldl (Sta.dedupStep dparse) m).map (fun p => p.1)).Nodup := by
  induction items with
  | nil => intro m hm; exact hm
  | cons it rest ih =>
    intro m hm
    refine ih (Sta.dedupStep dparse m it) ?_
    cases hfind : m.find? (fun q => q.1 == it.sensorName) with
    | none =>
      simp only [Sta.dedupStep, hfind, List.map_append]
      rw [List.nodup_append]
      refine ⟨hm, List.nodup_singleton _, ?_⟩
      intro a ha hb
      rcases List.mem_singleton.mp hb with rfl
      rcases List.mem_map.mp ha with ⟨q, hq, hq1⟩
      have := List.find?_eq_none.mp hfind q hq
      apply this
      rw [hq1]
      exact beq_iff_eq.mpr rfl
    | some pr =>
      simp only [Sta.dedupStep, hfind]
      by_cases hgt : Sta.jsGt (Sta.tmsOfNew dparse it) (Sta.tmsOfPrev dparse pr.2) = true
      · rw [if_pos hgt, List.map_map]
        have hcomp : ((fun p : String × Sta.StaItem => p.1) ∘
            (fun p : String × Sta.StaItem =>
              if (p.1 == it.sensorName) = true then (p.1, it) else p)) =
            (fun p : String × Sta.StaItem => p.1) := by
          funext p
          simp only [Function.comp_apply]
          split <;> rfl
        rw [hcomp]
        exact hm
      · rw [if_neg hgt]
        exact hm

theorem retainFold_mem (dparse : String → Option ℚ) (l : List Sta.StaItem) :
    ∀ (acc : Option Sta.StaItem) (x : Sta.StaItem),
      l.foldl (Sta.retainStep dparse) acc = some x → x ∈ l ∨ acc = some x := by
  induction l with
  | nil => intro acc x h; exact Or.inr h
  | cons y ys ih =>
    intro acc x h
    rw [List.foldl_cons] at h
    rcases ih (Sta.retainStep dparse acc y) x h with hin | hstep
    · exact Or.inl (List.mem_cons_of_mem y hin)
    · cases acc with
      | none =>
        simp only [Sta.retainStep] at hstep
        rcases Option.some_inj.mp hstep with rfl
        exact Or.inl (List.mem_cons_self y ys)
      | some prev =>
        simp only [Sta.retainStep] at hstep
        by_cases hgt : Sta.jsGt (Sta.tmsOfNew dparse y) (Sta.tmsOfPrev dparse prev) = true
        · rw [if_pos hgt] at hstep
          rcases Option.some_inj.mp hstep with rfl
          exact Or.inl (List.mem_cons_self y ys)
        · rw [if_neg hgt] at hstep
          exact Or.inr hstep

theorem retainStep_isSome (dparse : String → Option ℚ) (acc : Option Sta.StaItem)
    (it : Sta.StaItem) : (Sta.retainStep dparse acc it).isSome = true := by
  cases acc with
  | none => rfl
  | some prev =>
    simp only [Sta.retainStep]
    split <;> rfl

theorem retainFold_isSome (dparse : String → Option ℚ) (l : List Sta.StaItem) :
    ∀ (acc : Option Sta.StaItem), acc.isSome = true →
      (l.foldl (Sta.retainStep dparse) acc).isSome = true := by
  induction l with
  | nil => intro acc h; exact h
  | cons y ys ih =>
    intro acc _
    rw [List.foldl_cons]
    exact ih _ (retainStep_isSome dparse acc y)

theorem find?_of_mem_nodupkeys {β : Type} (m : List (String × β)) (p : String × β)
    (hmem : p ∈ m) (hnodup : (m.map (fun q => q.1)).Nodup) :
    m.find? (fun q => q.1 == p.1) = some p := by
  induction m with
  | nil => exact absurd hmem (List.not_mem_nil p)
  | cons q qs ih =>
    rw [List.map_cons] at hnodup
    have hn := List.nodup_cons.mp hnodup
    rcases List.mem_cons.mp hmem with rfl | hin
    · simp [List.find?_cons, beq_iff_eq.mpr rfl]
    · by_cases hq : (q.1 == p.1) = true
      · exfalso
        apply hn.1
        rw [beq_iff_eq.mp hq]
        exact List.mem_map.mpr ⟨p, hin, rfl⟩
      · rw [List.find?_cons]
        simp only [hq]
        exact ih hin hn.2

/-- Claim C3 (amended): each successful poll cycle retains exactly one Decision
per sensor id, namely the fold of the source's replacement rule over that
sensor's rows in arrival order: an incoming row replaces the retained one only
when both sides' times parse to numbers (comparisons involving an unparsable
time are false, so a row with an unparsable non-empty time never replaces the
retained row and is never replaced once retained; an empty time stands for
epoch 0 on the incoming side) and the incoming instant is strictly later — and
the retained decisions are sorted by sensor id; in particular, for two rows of
one sensor whose times parse as T1 < T2, only the T2 row is retained. -/
theorem dedup_latest_amended :
    (∀ (dparse : String → Option ℚ) (le : String → String → Bool)
       (items : List Sta.StaItem) (it : Sta.StaItem),
      it ∈ Sta.dedupSort dparse le items →
      some it = (items.filter (fun x => x.sensorName == it.sensorName)).foldl
          (Sta.retainStep dparse) none)
    ∧ (∀ (dparse : String → Option ℚ) (le : String → String → Bool)
        (items : List Sta.StaItem),
        (Sta.dedupSort dparse le items).Pairwise (fun a b => a.sensorName ≠ b.sensorName))
    ∧ (∀ (dparse : String → Option ℚ) (le : String → String → Bool)
        (items : List Sta.StaItem) (k : String),
        (∃ it ∈ items, it.sensorName = k) ↔
          (∃ it ∈ Sta.dedupSort dparse le items, it.sensorName = k))
    ∧ (∀ (dparse : String → Option ℚ) (le : String → String → Bool),
        (∀ a b, le a b = true ∨ le b a = true) →
        (∀ a b c, le a b = true → le b c = true → le a c = true) →
        ∀ items : List Sta.StaItem,
        (Sta.dedupSort dparse le items).Pairwise
          (fun a b => le a.sensorName b.sensorName = true))
    ∧ (∀ (dparse : String → Option ℚ) (le : String → String → Bool)
        (i1 i2 : Sta.StaItem) (a b : ℚ),
        i1.sensorName = i2.sensorName →
        Sta.tmsOfNew dparse i2 = some b → Sta.tmsOfPrev dparse i1 = some a → a < b →
        Sta.dedupSort dparse le [i1, i2] = [i2]) := by
  have hA : ∀ (dparse : String → Option ℚ) (le : String → String → Bool)
      (items : List Sta.StaItem) (it : Sta.StaItem),
      it ∈ Sta.dedupSort dparse le items →
      some it = (items.filter (fun x => x.sensorName == it.sensorName)).foldl
          (Sta.retainStep dparse) none := by
    intro dparse le items it hit
    have hit' : it ∈ sortLe (fun x y : Sta.StaItem => le x.sensorName y.sensorName)
        ((Sta.dedupFold dparse items).map (fun p => p.2)) := hit
    have hmem := (mem_sortLe (fun x y : Sta.StaItem => le x.sensorName y.sensorName) it
      ((Sta.dedupFold dparse items).map (fun p => p.2))).mp hit'
    rcases List.mem_map.mp hmem with ⟨p, hp, hp2⟩
    have hkey : p.1 = p.2.sensorName :=
      dedupFold_key_inv dparse items [] (by simp) p hp
    have hnodup : ((items.foldl (Sta.dedupStep dparse) []).map (fun q => q.1)).Nodup :=
      dedupFold_keys_nodup dparse items [] (by simp)
    have hfind : (items.foldl (Sta.dedupStep dparse) []).find? (fun q => q.1 == p.1) =
        some p := find?_of_mem_nodupkeys _ p hp hnodup
    have hmain := dedupFold_lookup dparse items [] p.1
    rw [hfind] at hmain
    simp only [Option.map_some'] at hmain
    rw [hkey, hp2] at hmain
    simpa using hmain
  refine ⟨hA, fun dparse le items => ?_, fun dparse le items k => ?_,
    fun dparse le htot htrans items => ?_, fun dparse le i1 i2 a b h12 hb ha hab => ?_⟩
  · have hnodup : ((items.foldl (Sta.dedupStep dparse) []).map (fun q => q.1)).Nodup :=
      dedupFold_keys_nodup dparse items [] (by simp)
    have hinv := dedupFold_key_inv dparse items [] (by simp)
    have h1 : (items.foldl (Sta.dedupStep dparse) []).Pairwise (fun p q => p.1 ≠ q.1) :=
      List.pairwise_map.mp hnodup
    have hpair : (items.foldl (Sta.dedupStep dparse) []).Pairwise
        (fun p q => p.2.sensorName ≠ q.2.sensorName) := by
      refine h1.imp_of_mem ?_
      intro p q hpmem hqmem hne
      rw [← hinv p hpmem, ← hinv q hqmem]
      exact hne
    have hvals : ((items.foldl (Sta.dedupStep dparse) []).map (fun p => p.2)).Pairwise
        (fun x y => x.sensorName ≠ y.sensorName) := List.pairwise_map.mpr hpair
    have hperm := sortLe_perm (fun x y : Sta.StaItem => le x.sensorName y.sensorName)
      ((Sta.dedupFold dparse items).map (fun p => p.2))
    exact (hperm.pairwise_iff (fun h => Ne.symm h)).mpr hvals
  · constructor
    · rintro ⟨it, hin, rfl⟩
      have hmain := dedupFold_lookup dparse items [] it.sensorName
      have hfil : it ∈ items.filter (fun x => x.sensorName == it.sensorName) :=
        List.mem_filter.mpr ⟨hin, beq_iff_eq.mpr rfl⟩
      have hsome : ((items.filter (fun x => x.sensorName == it.sensorName)).foldl
          (Sta.retainStep dparse)
          ((([] : List (String × Sta.StaItem)).find? (fun p => p.1 == it.sensorName)).map
            (fun p => p.2))).isSome = true := by
        cases hfl : items.filter (fun x => x.sensorName == it.sensorName) with
        | nil =>
          rw [hfl] at hfil
          exact absurd hfil (List.not_mem_nil it)
        | cons y ys =>
          rw [List.foldl_cons]
          exact retainFold_isSome dparse ys _ (retainStep_isSome dparse _ y)
      rw [← hmain] at hsome
      rcases Option.isSome_iff_exists.mp hsome with ⟨v, hv⟩
      rcases Option.map_eq_some'.mp hv with ⟨pair, hpair, hpv⟩
      have hpmem := List.mem_of_find?_eq_some hpair
      refine ⟨pair.2, ?_, ?_⟩
      · exact (mem_sortLe (fun x y : Sta.StaItem => le x.sensorName y.sensorName) pair.2
          ((Sta.dedupFold dparse items).map (fun p => p.2))).mpr
          (List.mem_map.mpr ⟨pair, hpmem, rfl⟩)
      · have hkinv := dedupFold_key_inv dparse items [] (by simp) pair hpmem
        have hky : (pair.1 == it.sensorName) = true := by
          have h := List.find?_some hpair
          exact h
        rw [← hkinv]
        exact beq_iff_eq.mp hky
    · rintro ⟨out, hout, rfl⟩
      have hfold := hA dparse le items out hout
      rcases retainFold_mem dparse _ none out hfold.symm with hfil | habs
      · exact ⟨out, List.mem_of_mem_filter hfil, rfl⟩
      · exact absurd habs (by simp)
  · exact sortLe_pairwise (fun x y : Sta.StaItem => le x.sensorName y.sensorName)
      (fun x y => htot x.sensorName y.sensorName)
      (fun x y z hxy hyz => htrans x.sensorName y.sensorName z.sensorName hxy hyz)
      ((Sta.dedupFold dparse items).map (fun p => p.2))
  · have hfind1 : ([(i1.sensorName, i1)].find? (fun p => p.1 == i2.sensorName)) =
        some (i1.sensorName, i1) := by
      rw [List.find?_cons]
      simp [beq_iff_eq.mpr h12]
    have hgt : Sta.jsGt (Sta.tmsOfNew dparse i2)
        (Sta.tmsOfPrev dparse (i1.sensorName, i1).2) = true := by
      simp only [Sta.jsGt, hb, ha]
      exact decide_eq_true hab
    have hstep1 : Sta.dedupStep dparse [] i1 = [(i1.sensorName, i1)] := rfl
    have hstep2 : Sta.dedupStep dparse [(i1.sensorName, i1)] i2 = [(i1.sensorName, i2)] := by
      simp only [Sta.dedupStep, hfind1]
      rw [if_pos hgt]
      simp only [List.map_cons, List.map_nil]
      rw [if_pos (beq_iff_eq.mpr h12)]
    show sortLe (fun x y : Sta.StaItem => le x.sensorName y.sensorName)
        ((Sta.dedupFold dparse [i1, i2]).map (fun p => p.2)) = [i2]
    have hfold : Sta.dedupFold dparse [i1, i2] = [(i1.sensorName, i2)] := by
      show Sta.dedupStep dparse (Sta.dedupStep dparse [] i1) i2 = [(i1.sensorName, i2)]
      rw [hstep1, hstep2]
    rw [hfold]
    rfl

/-- Counterexample to claim C3 as stated: for sensor s1 the first decision row
has the unparsable time `garbage` (`Date.parse` yields NaN) and the second the
valid instant 2020-01-01T00:00:00.000Z.  Treating the unparsable time as epoch
0, as the claim prescribes, the second row carries the strictly later instant
and should be the one retained; the code retains the first row, because the
incoming parsed time is compared against NaN and every such comparison is
false. -/
theorem dedup_latest_counterexample :
    Sta.dedupSort Sta.dparseFix (fun _ _ => true)
        [⟨"s1", "garbage", none, .UNKNOWN⟩,
         ⟨"s1", "2020-01-01T00:00:00.000Z", some 0.9, .TAKE_ACTION⟩]
      = [⟨"s1", "garbage", none, .UNKNOWN⟩]
    ∧ Sta.specAdjTime Sta.dparseFix ⟨"s1", "garbage", none, .UNKNOWN⟩ <
        Sta.specAdjTime Sta.dparseFix
          ⟨"s1", "2020-01-01T00:00:00.000Z", some 0.9, .TAKE_ACTION⟩ := by
  constructor
  · rfl
  · decide

/-- Witness for the amended C3: two rows for sensor s1 whose times parse to
instants 1 < 2; only the later row is retained. -/
theorem dedup_latest_amended_witness :
    Sta.dedupSort (fun s => if s = "t1" then some 1 else if s = "t2" then some 2 else none)
        (fun _ _ => true)
        [⟨"s1", "t1", none, .UNKNOWN⟩, ⟨"s1", "t2", none, .UNKNOWN⟩]
      = [⟨"s1", "t2", none, .UNKNOWN⟩] :=
  dedup_latest_amended.2.2.2.2
    (fun s => if s = "t1" then some 1 else if s = "t2" then some 2 else none)
    (fun _ _ => true)
    ⟨"s1", "t1", none, .UNKNOWN⟩ ⟨"s1", "t2", none, .UNKNOWN⟩ 1 2 rfl rfl rfl
    (by norm_num)
